import Mathlib

/-!
Verification of the ppdmod likelihood, radiative-profile and readout layers.

Each definition is a shallow embedding of the correspondingly named Python
function of the repository (src/ppdmod/libs/fitting_utils.py,
src/ppdmod/libs/utils.py, src/ppdmod/libs/readout.py,
src/ppdmod/functionality/model_base.py).  Numpy float arrays are embedded as
lists of exact numbers (rationals where the code only compares and adds,
reals where it takes square roots, powers, exponentials or logarithms); the
float values -inf is embedded as `Option.none` where a function can only
return a finite value or -inf.
-/

namespace Ppdmod

/-! ## fitting_utils.lnprior / lnprob

`lnprior(theta, priors)` walks the priors in order and returns -inf as soon
as one position fails the strict test `priors[i][0] < theta[i] < priors[i][1]`,
and 0.0 otherwise.  `none` stands for -np.inf, `some x` for the finite float
x.  The case of a theta shorter than the priors (IndexError in Python) is
mapped to `none`; every theorem below carries the length hypothesis that
rules it out. -/

def lnprior : List ℚ → List (ℚ × ℚ) → Option ℚ
  | _, [] => some 0
  | [], _ :: _ => none
  | t :: ts, p :: ps => if p.1 < t ∧ t < p.2 then lnprior ts ps else none

/-- `lnprob(theta, data)` returns `lnlike(theta, data)` when
`np.isfinite(lnprior(theta, data.priors))` holds and -inf otherwise.  The
model evaluation `lnlike` is passed in as a function parameter: the embedding
quantifies over it, which expresses that the rejection path never evaluates
the model. -/
def lnprob (lnlike : List ℚ → ℚ) (theta : List ℚ) (priors : List (ℚ × ℚ)) :
    Option ℚ :=
  match lnprior theta priors with
  | some _ => some (lnlike theta)
  | none => none

theorem lnprior_none_or_zero (theta : List ℚ) (priors : List (ℚ × ℚ)) :
    lnprior theta priors = some 0 ∨ lnprior theta priors = none := by
  induction priors generalizing theta with
  | nil => cases theta <;> exact Or.inl rfl
  | cons p ps ih =>
    cases theta with
    | nil => exact Or.inr rfl
    | cons t ts =>
      by_cases h : p.1 < t ∧ t < p.2
      · simpa [lnprior, h] using ih ts
      · simp [lnprior, h]

theorem lnprior_some_iff (theta : List ℚ) (priors : List (ℚ × ℚ))
    (hlen : priors.length ≤ theta.length) :
    lnprior theta priors = some 0 ↔
      ∀ i, i < priors.length →
        (priors.getD i (0, 0)).1 < theta.getD i 0 ∧
        theta.getD i 0 < (priors.getD i (0, 0)).2 := by
  induction priors generalizing theta with
  | nil => simp [lnprior]
  | cons p ps ih =>
    cases theta with
    | nil => simp at hlen
    | cons t ts =>
      have hlen' : ps.length ≤ ts.length := by
        simpa using Nat.succ_le_succ_iff.mp (by simpa using hlen)
      by_cases h : p.1 < t ∧ t < p.2
      · rw [lnprior, if_pos h, ih ts hlen']
        constructor
        · intro hall i hi
          cases i with
          | zero => simpa using h
          | succ j => simpa using hall j (Nat.lt_of_succ_lt_succ hi)
        · intro hall i hi
          simpa using hall (i + 1) (Nat.succ_lt_succ hi)
      · rw [lnprior, if_neg h]
        simp only [false_iff, reduceCtorEq, false_iff]
        intro hall
        exact h (by simpa using hall 0 (Nat.succ_pos _))

/-- C2: `lnprob` returns -inf (embedded as `none`) whenever some parameter of
theta lies strictly outside its prior interval, and in that case its value
does not depend on the model function `lnlike` (the model is not evaluated);
when every parameter lies strictly inside its interval it returns the finite
value `lnlike theta`. -/
theorem lnprob_prior_rejection (lnlike lnlike' : List ℚ → ℚ) (theta : List ℚ)
    (priors : List (ℚ × ℚ)) (hlen : priors.length ≤ theta.length) :
    ((∃ i, i < priors.length ∧
        (theta.getD i 0 < (priors.getD i (0, 0)).1 ∨
         (priors.getD i (0, 0)).2 < theta.getD i 0)) →
      lnprob lnlike theta priors = none ∧
      lnprob lnlike theta priors = lnprob lnlike' theta priors) ∧
    ((∀ i, i < priors.length →
        (priors.getD i (0, 0)).1 < theta.getD i 0 ∧
        theta.getD i 0 < (priors.getD i (0, 0)).2) →
      lnprob lnlike theta priors = some (lnlike theta)) := by
  constructor
  · rintro ⟨i, hi, hout⟩
    have hnot : lnprior theta priors ≠ some 0 := by
      intro hsome
      have hall := (lnprior_some_iff theta priors hlen).mp hsome
      rcases hall i hi with ⟨h1, h2⟩
      rcases hout with h | h
      · exact absurd (h1.trans h) (lt_irrefl _)
      · exact absurd (h.trans h2) (lt_irrefl _)
    have hnone : lnprior theta priors = none :=
      (lnprior_none_or_zero theta priors).resolve_left hnot
    constructor <;> simp [lnprob, hnone]
  · intro hall
    have hsome : lnprior theta priors = some 0 :=
      (lnprior_some_iff theta priors hlen).mpr hall
    simp [lnprob, hsome]

/-- Witness for C2 at theta = [1/2] against the single prior (0, 1) (inside:
accepted with the model value) and, folded into the same concrete check,
nothing more is needed: the hypotheses of `lnprob_prior_rejection` are
discharged at this input. -/
theorem lnprob_prior_rejection_witness :
    lnprob (fun _ => (5 : ℚ)) [(1 : ℚ) / 2] [((0 : ℚ), 1)] = some 5 :=
  (lnprob_prior_rejection (fun _ => (5 : ℚ)) (fun _ => (7 : ℚ))
      [(1 : ℚ) / 2] [((0 : ℚ), 1)] (by norm_num)).2
    (by
      intro i hi
      simp only [List.length_cons, List.length_nil] at hi
      have hz : i = 0 := by omega
      subst hz
      norm_num)

/-- C10: the prior test is strict, so a parameter exactly equal to its lower
or upper bound is rejected: `lnprior` returns -inf (`none`) and `lnprob`
rejects the vector. -/
theorem lnprior_boundary_rejection (lnlike : List ℚ → ℚ) (theta : List ℚ)
    (priors : List (ℚ × ℚ)) (hlen : priors.length ≤ theta.length) (i : ℕ)
    (hi : i < priors.length)
    (hb : theta.getD i 0 = (priors.getD i (0, 0)).1 ∨
          theta.getD i 0 = (priors.getD i (0, 0)).2) :
    lnprior theta priors = none ∧ lnprob lnlike theta priors = none := by
  have hnot : lnprior theta priors ≠ some 0 := by
    intro hsome
    have hall := (lnprior_some_iff theta priors hlen).mp hsome
    rcases hall i hi with ⟨h1, h2⟩
    rcases hb with h | h
    · rw [h] at h1; exact lt_irrefl _ h1
    · rw [h] at h2; exact lt_irrefl _ h2
  have hnone : lnprior theta priors = none :=
    (lnprior_none_or_zero theta priors).resolve_left hnot
  exact ⟨hnone, by simp [lnprob, hnone]⟩

/-- Witness for C10: theta = [0] lies exactly on the lower bound of the
prior (0, 1) and is rejected. -/
theorem lnprior_boundary_rejection_witness :
    lnprior [(0 : ℚ)] [((0 : ℚ), 1)] = none ∧
    lnprob (fun _ => (5 : ℚ)) [(0 : ℚ)] [((0 : ℚ), 1)] = none :=
  lnprior_boundary_rejection (fun _ => (5 : ℚ)) [(0 : ℚ)] [((0 : ℚ), 1)]
    (by norm_num) 0 (by norm_num) (by norm_num)

/-! ## fitting_utils.chi_sq

The code computes one pooled inverse variance for the whole data array:
`inv_sigma_squared = 1 / np.sum(data_error**2 + data_model**2 * exp(2*lnf))`
and then `-0.5 * np.sum((real-model)**2 * inv_sigma_squared
- np.log(inv_sigma_squared))`.  Arrays are lists of reals; the elementwise
numpy operations over same-shape arrays are `List.zipWith`. -/

noncomputable def chi_sq (real_data data_error data_model : List ℝ)
    (lnf : ℝ) : ℝ :=
  let inv_sigma_squared : ℝ :=
    1 / (List.zipWith (fun e m => e ^ 2 + m ^ 2 * Real.exp (2 * lnf))
        data_error data_model).sum;
  -0.5 * (List.zipWith
      (fun o m => (o - m) ^ 2 * inv_sigma_squared - Real.log inv_sigma_squared)
      real_data data_model).sum

/-- The chi-square term as the claim words it: a per-measurement effective
variance `sigma_obs_i^2 + model_i^2 * exp(2*lnf)` inside the sum.  Written
from the claim to compare against `chi_sq`; not code of the repository. -/
noncomputable def chi_sq_claimed (real_data data_error data_model : List ℝ)
    (lnf : ℝ) : ℝ :=
  -0.5 * (List.zipWith
      (fun o em =>
        (o - em.2) ^ 2 / (em.1 ^ 2 + em.2 ^ 2 * Real.exp (2 * lnf)) +
          Real.log (em.1 ^ 2 + em.2 ^ 2 * Real.exp (2 * lnf)))
      real_data (data_error.zip data_model)).sum

/-- The single pooled effective variance `chi_sq` actually uses: the sum of
`sigma_obs_i^2 + model_i^2 * exp(2*lnf)` over all measurements. -/
noncomputable def pooled_sigma_squared (data_error data_model : List ℝ)
    (lnf : ℝ) : ℝ :=
  (List.zipWith (fun e m => e ^ 2 + m ^ 2 * Real.exp (2 * lnf))
      data_error data_model).sum

/-- C1 counterexample: with two measurements, obs = model = (0, 0) and unit
errors at lnf = 0, the code pools the variances (giving -log 2) while the
claimed per-measurement formula gives 0. -/
theorem chi_sq_per_measurement_cex :
    chi_sq [0, 0] [1, 1] [0, 0] 0 ≠ chi_sq_claimed [0, 0] [1, 1] [0, 0] 0 := by
  simp only [chi_sq, chi_sq_claimed, List.zip, List.zipWith_cons_cons,
    List.zipWith_nil_right, List.zipWith_nil_left, List.sum_cons, List.sum_nil]
  norm_num [Real.log_inv, Real.log_one]

/-- C1 amended: `chi_sq` equals
`-0.5 * sum_i ((obs_i - model_i)^2 / S + log S)` with the pooled variance
`S = pooled_sigma_squared`, the same for every measurement, in place of the
claimed per-measurement effective variance. -/
theorem chi_sq_pooled_variance (real_data data_error data_model : List ℝ)
    (lnf : ℝ) :
    chi_sq real_data data_error data_model lnf =
      -0.5 * (List.zipWith
          (fun o m =>
            (o - m) ^ 2 / pooled_sigma_squared data_error data_model lnf +
              Real.log (pooled_sigma_squared data_error data_model lnf))
          real_data data_model).sum := by
  simp only [chi_sq, pooled_sigma_squared]
  set S : ℝ := (List.zipWith (fun e m => e ^ 2 + m ^ 2 * Real.exp (2 * lnf))
      data_error data_model).sum with hS
  have hfun : (fun o m : ℝ => (o - m) ^ 2 * (1 / S) - Real.log (1 / S))
      = fun o m : ℝ => (o - m) ^ 2 / S + Real.log S := by
    funext o m
    rw [one_div, Real.log_inv, div_eq_mul_inv]
    ring
  rw [hfun]

/-! ## readout.get_closures_phase_uvcoords_split

The function reads the two measured legs (u1, v1), (u2, v2) of each closure
triangle and synthesizes the third as `u3, v3 = (u1+u2), (v1+v2)` (the
negated convention is present in the source only as a comment).  The
coordinate columns are lists of rationals. -/

def get_closures_phase_uvcoords_split (u1 v1 u2 v2 : List ℚ) :
    List (List ℚ) × List (List ℚ) :=
  ([u1, u2, List.zipWith (fun a b => a + b) u1 u2],
   [v1, v2, List.zipWith (fun a b => a + b) v1 v2])

theorem zipWith_add_getD (l1 l2 : List ℚ) (i : ℕ) (h1 : i < l1.length)
    (h2 : i < l2.length) :
    (List.zipWith (fun a b => a + b) l1 l2).getD i 0 =
      l1.getD i 0 + l2.getD i 0 := by
  induction l1 generalizing l2 i with
  | nil => simp at h1
  | cons a l1 ih =>
    cases l2 with
    | nil => simp at h2
    | cons b l2 =>
      cases i with
      | zero => simp
      | succ j =>
        simp only [List.zipWith_cons_cons, List.getD_cons_succ]
        exact ih l2 j (Nat.lt_of_succ_lt_succ h1) (Nat.lt_of_succ_lt_succ h2)

/-- C6: for every triangle index, the synthesized third leg equals
`(u1+u2, v1+v2)`, and (when that sum is not zero) differs from the negated
convention `-(u1+u2)`. -/
theorem closure_third_leg (u1 v1 u2 v2 : List ℚ) (i : ℕ)
    (hu1 : i < u1.length) (hu2 : i < u2.length)
    (hv1 : i < v1.length) (hv2 : i < v2.length) :
    ((get_closures_phase_uvcoords_split u1 v1 u2 v2).1.getD 2 []).getD i 0
        = u1.getD i 0 + u2.getD i 0 ∧
    ((get_closures_phase_uvcoords_split u1 v1 u2 v2).2.getD 2 []).getD i 0
        = v1.getD i 0 + v2.getD i 0 ∧
    (u1.getD i 0 + u2.getD i 0 ≠ 0 →
      ((get_closures_phase_uvcoords_split u1 v1 u2 v2).1.getD 2 []).getD i 0
        ≠ -(u1.getD i 0 + u2.getD i 0)) := by
  have hu : ((get_closures_phase_uvcoords_split u1 v1 u2 v2).1.getD 2 []).getD i 0
      = u1.getD i 0 + u2.getD i 0 := by
    simp only [get_closures_phase_uvcoords_split, List.getD_cons_succ,
      List.getD_cons_zero]
    exact zipWith_add_getD u1 u2 i hu1 hu2
  have hv : ((get_closures_phase_uvcoords_split u1 v1 u2 v2).2.getD 2 []).getD i 0
      = v1.getD i 0 + v2.getD i 0 := by
    simp only [get_closures_phase_uvcoords_split, List.getD_cons_succ,
      List.getD_cons_zero]
    exact zipWith_add_getD v1 v2 i hv1 hv2
  refine ⟨hu, hv, ?_⟩
  intro h0 heq
  rw [hu] at heq
  have hzero : u1.getD i 0 + u2.getD i 0 = 0 := by linarith
  exact h0 hzero

/-- Witness for C6 at the one-triangle input u1 = [1], v1 = [2], u2 = [3],
v2 = [4], index 0: the third leg is (4, 6), not (-4, -6). -/
theorem closure_third_leg_witness :
    ((get_closures_phase_uvcoords_split [(1 : ℚ)] [(2 : ℚ)] [(3 : ℚ)]
        [(4 : ℚ)]).1.getD 2 []).getD 0 0
      = [(1 : ℚ)].getD 0 0 + [(3 : ℚ)].getD 0 0 ∧
    ((get_closures_phase_uvcoords_split [(1 : ℚ)] [(2 : ℚ)] [(3 : ℚ)]
        [(4 : ℚ)]).2.getD 2 []).getD 0 0
      = [(2 : ℚ)].getD 0 0 + [(4 : ℚ)].getD 0 0 ∧
    ([(1 : ℚ)].getD 0 0 + [(3 : ℚ)].getD 0 0 ≠ 0 →
      ((get_closures_phase_uvcoords_split [(1 : ℚ)] [(2 : ℚ)] [(3 : ℚ)]
          [(4 : ℚ)]).1.getD 2 []).getD 0 0
        ≠ -([(1 : ℚ)].getD 0 0 + [(3 : ℚ)].getD 0 0)) :=
  closure_third_leg [(1 : ℚ)] [(2 : ℚ)] [(3 : ℚ)] [(4 : ℚ)] 0
    (by norm_num) (by norm_num) (by norm_num) (by norm_num)

/-! ## readout.get_wavelength_indices

For one target wavelength and one window size the code forms
`bot = wl - window/2`, `top = wl + window/2` and keeps the indices of the
wavelength solution with `solution > bot` and `solution < top` — both
comparisons strict. -/

def get_wavelength_indices (sol : List ℚ) (wl window : ℚ) : List ℕ :=
  (List.range sol.length).filter
    (fun i => decide (wl - window / 2 < sol.getD i 0 ∧
      sol.getD i 0 < wl + window / 2))

/-- The selection as the claim words it: the closed interval
`[wl - window/2, wl + window/2]`, endpoints included.  Written from the
claim to compare against `get_wavelength_indices`; not code of the
repository. -/
def get_wavelength_indices_claimed (sol : List ℚ) (wl window : ℚ) : List ℕ :=
  (List.range sol.length).filter
    (fun i => decide (wl - window / 2 ≤ sol.getD i 0 ∧
      sol.getD i 0 ≤ wl + window / 2))

/-- C8 counterexample: a wavelength solution entry exactly on the lower
endpoint (1 = 2 - 2/2) is excluded by the code but included by the claimed
closed interval. -/
theorem get_wavelength_indices_endpoint_cex :
    get_wavelength_indices [1] 2 2 = [] ∧
    get_wavelength_indices_claimed [1] 2 2 = [0] := by
  constructor <;>
    · simp only [get_wavelength_indices, get_wavelength_indices_claimed,
        List.length_cons, List.length_nil, List.range_succ, List.range_zero,
        List.nil_append, List.filter_cons, List.filter_nil]
      norm_num

/-- C8 amended: `get_wavelength_indices` returns exactly the indices of the
wavelength solution lying strictly inside the open interval
`(wl - window/2, wl + window/2)`; an entry exactly on an endpoint is
excluded. -/
theorem get_wavelength_indices_open_interval (sol : List ℚ) (wl window : ℚ)
    (i : ℕ) :
    i ∈ get_wavelength_indices sol wl window ↔
      i < sol.length ∧ wl - window / 2 < sol.getD i 0 ∧
        sol.getD i 0 < wl + window / 2 := by
  simp [get_wavelength_indices, List.mem_filter, List.mem_range, and_assoc]

/-! ## model_base.Model.__init__

The constructor body reads, in source order, the names its expressions
mention.  Python resolves each name against the local scope (the
constructor's parameters) and the module's globals; the first read of a name
in neither raises NameError and aborts the constructor, whatever the
argument values are.  Line 41 reads the misspelt name `luminostiy_star`. -/

def modelInitScope : List String :=
  ["self", "field_of_view", "image_size", "sublimation_temperature",
   "effective_temperature", "luminosity_star", "distance", "wavelength",
   "pixel_sampling",
   "inspect", "np", "u", "c", "models", "Quantity", "List", "Union",
   "Optional", "Model"]

/-- The names each statement of `Model.__init__` (lines 32-48) reads, in
source order. -/
def modelInitStatementReads : List (List String) :=
  [[],
   [],
   ["field_of_view", "u"],
   ["image_size", "u"],
   ["self", "pixel_sampling"],
   ["sublimation_temperature", "u"],
   ["effective_temperature", "u"],
   ["luminostiy_star", "u"],
   ["distance", "u"],
   ["wavelength", "u"],
   ["sublimation_radius", "self"],
   ["stellar_radius_pc", "self"],
   ["plancks_law_nu", "self"],
   ["np", "self"]]

def runInitStatements (scope : List String) :
    List (List String) → Except String Unit
  | [] => Except.ok ()
  | reads :: rest =>
    match reads.find? (fun n => !(scope.contains n)) with
    | some n => Except.error ("NameError: name " ++ n ++ " is not defined")
    | none => runInitStatements scope rest

/-- `Model.__init__`: argument values never enter name resolution, so the
run of the constructor body only threads the statements' name reads. -/
def modelInit (_args : String → ℚ) : Except String Unit :=
  runInitStatements modelInitScope modelInitStatementReads

/-- C9: for every argument tuple, constructing the base Model raises
NameError on the undefined name `luminostiy_star` (line 41) before the
constructor completes, so no instance of the base Model is ever created. -/
theorem model_init_name_error (args : String → ℚ) :
    modelInit args =
      Except.error "NameError: name luminostiy_star is not defined" :=
  rfl

/-! ## utils.py: sublimation radius and temperature

Radii are reals in meters, angles in milliarcseconds (mas), distances in
parsec, luminosities in watt, temperatures in kelvin.  The astropy unit
conversions the code applies are the two fixed positive factors below. -/

/-- `(1*u.rad).to(u.mas)`: one radian in milliarcseconds. -/
noncomputable def masPerRad : ℝ := 1000 * 3600 * 180 / Real.pi

/-- `(1*u.pc).to(u.m)`: one parsec in meters (the astropy value). -/
def pc2m : ℝ := 3.0856775814913673e16

/-- The Stefan-Boltzmann constant `c.sigma_sb` in SI units. -/
def sigma_sb : ℝ := 5.670374419e-8

/-- utils._convert_orbital_radius_to_parallax: angular diameter formula,
`(1*u.rad).to(u.mas) * orbital_radius / distance_in_m`. -/
noncomputable def _convert_orbital_radius_to_parallax
    (orbital_radius distance : ℝ) : ℝ :=
  masPerRad * (orbital_radius / (distance * pc2m))

/-- utils._convert_parallax_to_orbital_radius: its inverse,
`parallax * distance_in_m / (1*u.rad).to(u.mas)`. -/
noncomputable def _convert_parallax_to_orbital_radius
    (parallax distance : ℝ) : ℝ :=
  parallax * (distance * pc2m) / masPerRad

/-- utils._calculate_inner_radius: Stefan-Boltzmann balance radius
`sqrt(L / (4 pi sigma_sb T^4))` converted to mas. -/
noncomputable def _calculate_inner_radius
    (inner_temperature distance luminosity_star : ℝ) : ℝ :=
  _convert_orbital_radius_to_parallax
    (Real.sqrt (luminosity_star /
      (4 * Real.pi * sigma_sb * inner_temperature ^ 4)))
    distance

/-- utils._calculate_inner_temperature: the mas input is converted back to an
orbital radius and `(L / (4 pi sigma_sb r^2)) ** (1/4)` is taken. -/
noncomputable def _calculate_inner_temperature
    (inner_radius distance luminosity_star : ℝ) : ℝ :=
  (luminosity_star /
      (4 * Real.pi * sigma_sb *
        _convert_parallax_to_orbital_radius inner_radius distance ^ 2)) ^
    ((1 : ℝ) / 4)

/-- C3: for positive temperature, distance and luminosity the two
conversions are exact inverses: radius-from-temperature then
temperature-from-radius is the identity. -/
theorem inner_radius_temperature_round_trip (T d L : ℝ) (hT : 0 < T)
    (hd : 0 < d) (hL : 0 < L) :
    _calculate_inner_temperature (_calculate_inner_radius T d L) d L = T := by
  have hpi : (0 : ℝ) < Real.pi := Real.pi_pos
  have hmas : (0 : ℝ) < masPerRad := by unfold masPerRad; positivity
  have hpc : (0 : ℝ) < pc2m := by norm_num [pc2m]
  have hsb : (0 : ℝ) < sigma_sb := by norm_num [sigma_sb]
  have harg : 0 < L / (4 * Real.pi * sigma_sb * T ^ 4) := by positivity
  set R : ℝ := Real.sqrt (L / (4 * Real.pi * sigma_sb * T ^ 4)) with hR
  have hR2 : R ^ 2 = L / (4 * Real.pi * sigma_sb * T ^ 4) :=
    Real.sq_sqrt harg.le
  have hcancel : _convert_parallax_to_orbital_radius
      (_convert_orbital_radius_to_parallax R d) d = R := by
    unfold _convert_parallax_to_orbital_radius _convert_orbital_radius_to_parallax
    field_simp
  unfold _calculate_inner_temperature _calculate_inner_radius
  rw [← hR, hcancel, hR2]
  have hbase : L / (4 * Real.pi * sigma_sb *
      (L / (4 * Real.pi * sigma_sb * T ^ 4))) = T ^ 4 := by
    field_simp
    ring
  rw [hbase, ← Real.rpow_natCast T 4, ← Real.rpow_mul hT.le]
  norm_num

/-- Witness for C3 at T = d = L = 1. -/
theorem inner_radius_temperature_round_trip_witness :
    _calculate_inner_temperature (_calculate_inner_radius 1 1 1) 1 1 = 1 :=
  inner_radius_temperature_round_trip 1 1 1 (by norm_num) (by norm_num)
    (by norm_num)

/-! ## Numpy float semantics

`temperature_gradient` and `flux_per_pixel` are claims about inf and NaN, so
their arrays are embedded as IEEE-style extended values: a finite real, a
signed infinity, or NaN.  Only the operations those functions perform are
defined, with numpy's float64 behaviour on each case: a finite operation
whose exact real result exceeds the largest float64 magnitude overflows to
the signed infinity (`np.exp(1000) = inf`, `1 - np.exp(1000) = -inf`); a
finite result below that magnitude stands for its exact real value (rounding
and underflow-to-zero of representable magnitudes are not modelled, and
numpy's signed zero is not: the grids these functions receive hold only
unsigned nonnegative zeros, so real zero stands for +0). -/

/-- The largest finite float64, `np.finfo(np.float64).max`. -/
def maxFloat : ℝ := 1.7976931348623157e308

inductive FloatR where
  | fin : ℝ → FloatR
  | pinf : FloatR
  | ninf : FloatR
  | nan : FloatR

/-- How a finite exact real result lands in a float64: overflow past the
largest magnitude gives the signed infinity, anything else keeps the exact
value. -/
noncomputable def roundF (r : ℝ) : FloatR :=
  if r > maxFloat then .pinf
  else if r < -maxFloat then .ninf
  else .fin r

theorem one_le_maxFloat : (1 : ℝ) ≤ maxFloat := by norm_num [maxFloat]

theorem roundF_eq_fin (r : ℝ) (h1 : r ≤ maxFloat) (h2 : -maxFloat ≤ r) :
    roundF r = FloatR.fin r := by
  unfold roundF
  rw [if_neg (not_lt.mpr h1), if_neg (not_lt.mpr h2)]

theorem roundF_eq_pinf (r : ℝ) (h : maxFloat < r) : roundF r = FloatR.pinf := by
  unfold roundF
  rw [if_pos h]

noncomputable def FloatR.mul : FloatR → FloatR → FloatR
  | .nan, _ => .nan
  | _, .nan => .nan
  | .fin a, .fin b => roundF (a * b)
  | .fin a, .pinf => if 0 < a then .pinf else if a < 0 then .ninf else .nan
  | .fin a, .ninf => if 0 < a then .ninf else if a < 0 then .pinf else .nan
  | .pinf, .fin b => if 0 < b then .pinf else if b < 0 then .ninf else .nan
  | .ninf, .fin b => if 0 < b then .ninf else if b < 0 then .pinf else .nan
  | .pinf, .pinf => .pinf
  | .pinf, .ninf => .ninf
  | .ninf, .pinf => .ninf
  | .ninf, .ninf => .pinf

noncomputable def FloatR.div : FloatR → FloatR → FloatR
  | .nan, _ => .nan
  | _, .nan => .nan
  | .fin a, .fin b =>
      if b ≠ 0 then roundF (a / b)
      else if 0 < a then .pinf else if a < 0 then .ninf else .nan
  | .fin _, .pinf => .fin 0
  | .fin _, .ninf => .fin 0
  | .pinf, .fin b => if 0 ≤ b then .pinf else .ninf
  | .ninf, .fin b => if 0 ≤ b then .ninf else .pinf
  | .pinf, .pinf => .nan
  | .pinf, .ninf => .nan
  | .ninf, .pinf => .nan
  | .ninf, .ninf => .nan

noncomputable def FloatR.sub : FloatR → FloatR → FloatR
  | .nan, _ => .nan
  | _, .nan => .nan
  | .fin a, .fin b => roundF (a - b)
  | .fin _, .pinf => .ninf
  | .fin _, .ninf => .pinf
  | .pinf, .fin _ => .pinf
  | .ninf, .fin _ => .ninf
  | .pinf, .pinf => .nan
  | .pinf, .ninf => .pinf
  | .ninf, .pinf => .ninf
  | .ninf, .ninf => .nan

noncomputable def FloatR.neg : FloatR → FloatR
  | .fin x => .fin (-x)
  | .pinf => .ninf
  | .ninf => .pinf
  | .nan => .nan

/-- numpy.exp: overflows to +inf for arguments of roughly 709.78 and up. -/
noncomputable def FloatR.exp : FloatR → FloatR
  | .fin x => roundF (Real.exp x)
  | .pinf => .pinf
  | .ninf => .fin 0
  | .nan => .nan

/-- numpy.expm1, with the same overflow to +inf. -/
noncomputable def FloatR.expm1 : FloatR → FloatR
  | .fin x => roundF (Real.exp x - 1)
  | .pinf => .pinf
  | .ninf => .fin (-1)
  | .nan => .nan

/-- Float division of two finite reals (the only numpy division these
functions perform on raw arrays): rounded finite quotient, a signed infinity
on x/0 with x nonzero, NaN on 0/0. -/
noncomputable def fdivR (a b : ℝ) : FloatR :=
  if b ≠ 0 then roundF (a / b)
  else if 0 < a then .pinf
  else if a < 0 then .ninf
  else .nan

/-- numpy `x ** y` for a finite nonnegative base (a negative base with a
non-integral exponent is NaN in numpy; the radius ratios these models are
evaluated on are nonnegative): `0 ** 0 = 1`, `0 ** y = +inf` for `y < 0`. -/
noncomputable def npPow (x y : ℝ) : FloatR :=
  if 0 < x then roundF (x ^ y)
  else if x = 0 then
    (if 0 < y then .fin 0 else if y = 0 then .fin 1 else .pinf)
  else .nan

noncomputable def FloatR.npowR : FloatR → ℝ → FloatR
  | .fin x, y => npPow x y
  | .pinf, y => if 0 < y then .pinf else if y = 0 then .fin 1 else .fin 0
  | .ninf, y => if y = 0 then .fin 1 else .nan
  | .nan, y => if y = 0 then .fin 1 else .nan

/-- astropy `PowerLaw1D.evaluate(x, amplitude, x_0, alpha)`:
`amplitude * (x / x_0) ** (-alpha)`. -/
noncomputable def powerLaw1D (x amplitude x_0 alpha : ℝ) : FloatR :=
  FloatR.mul (.fin amplitude) (FloatR.npowR (fdivR x x_0) (-alpha))

/-- `temperature[temperature == np.inf] = 0.`: only +inf entries are
replaced by zero; NaN and -inf compare unequal to np.inf and pass through. -/
noncomputable def clampInfToZero : FloatR → FloatR
  | .pinf => .fin 0
  | x => x

/-- utils.temperature_gradient at one radius value:
`PowerLaw1D().evaluate(radius, inner_temperature, inner_radius, q)` followed
by the +inf clamp. -/
noncomputable def temperature_gradient
    (radius power_law_exponent inner_radius inner_temperature : ℝ) : FloatR :=
  clampInfToZero
    (powerLaw1D radius inner_temperature inner_radius power_law_exponent)

/-- C4 counterexample: at q = 0 the power law at radius 0 is
`T_in * (0/1) ** 0 = T_in * 1` (numpy 0**0 = 1), so the gradient returns
T_in = 1500, not 0 — no infinity arises and the clamp never fires. -/
theorem temperature_gradient_q_zero_cex :
    temperature_gradient 0 0 1 1500 ≠ FloatR.fin 0 := by
  have h1 : fdivR 0 1 = FloatR.fin 0 := by
    unfold fdivR
    rw [if_pos (by norm_num : (1 : ℝ) ≠ 0),
      show (0 : ℝ) / 1 = 0 by norm_num]
    exact roundF_eq_fin 0 (by linarith [one_le_maxFloat])
      (by linarith [one_le_maxFloat])
  have h2 : FloatR.npowR (FloatR.fin 0) (-0) = FloatR.fin 1 := by
    show npPow 0 (-0) = FloatR.fin 1
    unfold npPow
    rw [if_neg (lt_irrefl (0 : ℝ)), if_pos rfl, if_neg (by norm_num),
      if_pos (by norm_num)]
  have h3 : FloatR.mul (FloatR.fin 1500) (FloatR.fin 1) = FloatR.fin 1500 := by
    show roundF (1500 * 1) = FloatR.fin 1500
    rw [show (1500 : ℝ) * 1 = 1500 by norm_num]
    exact roundF_eq_fin 1500 (by norm_num [maxFloat]) (by norm_num [maxFloat])
  simp only [temperature_gradient, powerLaw1D, h1, h2, h3, clampInfToZero]
  intro h
  have := FloatR.fin.inj h
  norm_num at this

/-- C4 amended: for a positive exponent q, positive inner radius and
positive inner temperature, the power law at radius 0 is `T_in * 0**(-q) =
T_in * inf = inf` and the clamp replaces it by exactly 0. -/
theorem temperature_gradient_zero_radius (q r_in T_in : ℝ) (hq : 0 < q)
    (hr : 0 < r_in) (hT : 0 < T_in) :
    temperature_gradient 0 q r_in T_in = FloatR.fin 0 := by
  have h1 : fdivR 0 r_in = FloatR.fin 0 := by
    unfold fdivR
    rw [if_pos hr.ne', zero_div]
    exact roundF_eq_fin 0 (by linarith [one_le_maxFloat])
      (by linarith [one_le_maxFloat])
  have h2 : FloatR.npowR (FloatR.fin 0) (-q) = FloatR.pinf := by
    show npPow 0 (-q) = FloatR.pinf
    unfold npPow
    rw [if_neg (lt_irrefl (0 : ℝ)), if_pos rfl, if_neg (by linarith),
      if_neg (by linarith)]
  have h3 : FloatR.mul (FloatR.fin T_in) FloatR.pinf = FloatR.pinf := by
    show (if 0 < T_in then FloatR.pinf else if T_in < 0 then FloatR.ninf
        else FloatR.nan) = FloatR.pinf
    rw [if_pos hT]
  simp only [temperature_gradient, powerLaw1D, h1, h2, h3, clampInfToZero]

/-- Witness for the amended C4 at q = r_in = T_in = 1. -/
theorem temperature_gradient_zero_radius_witness :
    temperature_gradient 0 1 1 1 = FloatR.fin 0 :=
  temperature_gradient_zero_radius 1 1 1 (by norm_num) (by norm_num)
    (by norm_num)

/-! ## utils.flux_per_pixel

`models.BlackBody(temperature)(wavelength)` evaluates Planck's law as
`c1 / expm1(c2 / T)` with `c1 = 2 h nu^3 / c^2` (rescaled by the fixed unit
conversion to Jy/mas^2) and `c2 = h nu / k_B`; both are positive for a
positive wavelength.  The flux per pixel is the spectral radiance times
`pixel_size ** 2` times `1 - exp(-optical_depth)`; no explicit NaN/inf mask
is applied by this function. -/

noncomputable def planck_blackbody (c1 c2 T : ℝ) : FloatR :=
  FloatR.div (.fin c1) (FloatR.expm1 (fdivR c2 T))

/-- utils.flux_per_pixel at one pixel of the temperature and optical-depth
distributions. -/
noncomputable def flux_per_pixel (c1 c2 pixel_size T tau : ℝ) : FloatR :=
  FloatR.mul (FloatR.mul (planck_blackbody c1 c2 T) (.fin (pixel_size ^ 2)))
    (FloatR.sub (.fin 1) (FloatR.exp (FloatR.neg (.fin tau))))

/-- utils.flux_per_pixel over whole same-shape temperature and optical-depth
arrays. -/
noncomputable def flux_per_pixel_map (c1 c2 pixel_size : ℝ)
    (temperature_distribution optical_depth : List ℝ) : List FloatR :=
  List.zipWith (fun T tau => flux_per_pixel c1 c2 pixel_size T tau)
    temperature_distribution optical_depth

def FloatR.isFin : FloatR → Prop
  | .fin _ => True
  | _ => False

theorem FloatR.mul_fin_fin (a b : ℝ) :
    FloatR.mul (FloatR.fin a) (FloatR.fin b) = roundF (a * b) := rfl

theorem FloatR.mul_fin_ninf (a : ℝ) (ha : 0 < a) :
    FloatR.mul (FloatR.fin a) FloatR.ninf = FloatR.ninf := by
  show (if 0 < a then FloatR.ninf else if a < 0 then FloatR.pinf
      else FloatR.nan) = FloatR.ninf
  rw [if_pos ha]

theorem FloatR.div_fin_fin (a b : ℝ) (hb : b ≠ 0) :
    FloatR.div (FloatR.fin a) (FloatR.fin b) = roundF (a / b) := by
  show (if b ≠ 0 then roundF (a / b)
      else if 0 < a then FloatR.pinf else if a < 0 then FloatR.ninf
      else FloatR.nan) = roundF (a / b)
  rw [if_pos hb]

theorem FloatR.div_fin_pinf (a : ℝ) :
    FloatR.div (FloatR.fin a) FloatR.pinf = FloatR.fin 0 := rfl

theorem FloatR.neg_fin (x : ℝ) :
    FloatR.neg (FloatR.fin x) = FloatR.fin (-x) := rfl

theorem FloatR.exp_fin (x : ℝ) :
    FloatR.exp (FloatR.fin x) = roundF (Real.exp x) := rfl

theorem FloatR.expm1_fin (x : ℝ) :
    FloatR.expm1 (FloatR.fin x) = roundF (Real.exp x - 1) := rfl

theorem FloatR.expm1_pinf : FloatR.expm1 FloatR.pinf = FloatR.pinf := rfl

theorem mem_zipWith_exists {α β γ : Type} (f : α → β → γ) :
    ∀ (l1 : List α) (l2 : List β), ∀ x ∈ List.zipWith f l1 l2,
      ∃ a ∈ l1, ∃ b ∈ l2, x = f a b
  | [], _, x, hx => by simp at hx
  | _ :: _, [], x, hx => by simp at hx
  | a :: l1, b :: l2, x, hx => by
    rcases List.mem_cons.mp hx with h1 | h2
    · exact ⟨a, List.mem_cons_self a l1, b, List.mem_cons_self b l2, h1⟩
    · rcases mem_zipWith_exists f l1 l2 x h2 with ⟨a2, ha, b2, hb, hx2⟩
      exact ⟨a2, List.mem_cons_of_mem a ha, b2, List.mem_cons_of_mem b hb, hx2⟩

/-- When the Planck radiance of a pixel is a finite nonnegative value whose
product with the pixel solid angle stays in float range, the pixel flux is
the exact finite product with the absorption factor (nonnegative optical
depth keeps that factor in [0, 1)). -/
theorem flux_per_pixel_of_planck_fin (c1 c2 pixel_size T tau p : ℝ)
    (hp : planck_blackbody c1 c2 T = FloatR.fin p) (hp0 : 0 ≤ p)
    (hbound : p * pixel_size ^ 2 ≤ maxFloat) (htau : 0 ≤ tau) :
    flux_per_pixel c1 c2 pixel_size T tau
      = FloatR.fin (p * pixel_size ^ 2 * (1 - Real.exp (-tau))) := by
  have hM := one_le_maxFloat
  have hexp1 : Real.exp (-tau) ≤ 1 := Real.exp_le_one_iff.mpr (by linarith)
  have hexp0 : 0 < Real.exp (-tau) := Real.exp_pos _
  have habs : FloatR.exp (FloatR.neg (FloatR.fin tau))
      = FloatR.fin (Real.exp (-tau)) := by
    rw [FloatR.neg_fin, FloatR.exp_fin]
    exact roundF_eq_fin _ (by linarith) (by linarith)
  have hsub : FloatR.sub (FloatR.fin 1) (FloatR.fin (Real.exp (-tau)))
      = FloatR.fin (1 - Real.exp (-tau)) := by
    show roundF (1 - Real.exp (-tau)) = _
    exact roundF_eq_fin _ (by linarith) (by linarith)
  have hpix : 0 ≤ p * pixel_size ^ 2 := mul_nonneg hp0 (sq_nonneg _)
  have hmul1 : FloatR.mul (FloatR.fin p) (FloatR.fin (pixel_size ^ 2))
      = FloatR.fin (p * pixel_size ^ 2) := by
    rw [FloatR.mul_fin_fin]
    exact roundF_eq_fin _ hbound (by linarith)
  have hfin2 : p * pixel_size ^ 2 * (1 - Real.exp (-tau)) ≤ maxFloat := by
    have hstep : p * pixel_size ^ 2 * (1 - Real.exp (-tau))
        ≤ p * pixel_size ^ 2 * 1 :=
      mul_le_mul_of_nonneg_left (by linarith) hpix
    linarith
  have hfin0 : 0 ≤ p * pixel_size ^ 2 * (1 - Real.exp (-tau)) :=
    mul_nonneg hpix (by linarith)
  have hmul2 : FloatR.mul (FloatR.fin (p * pixel_size ^ 2))
      (FloatR.fin (1 - Real.exp (-tau)))
      = FloatR.fin (p * pixel_size ^ 2 * (1 - Real.exp (-tau))) := by
    rw [FloatR.mul_fin_fin]
    exact roundF_eq_fin _ hfin2 (by linarith)
  unfold flux_per_pixel
  rw [hp, habs, hsub, hmul1, hmul2]

/-- One pixel of physically scaled input (nonnegative temperature within the
float overflow scale, nonnegative optical depth) gives a finite flux. -/
theorem flux_per_pixel_isFin_physical (c1 c2 pixel_size T tau : ℝ)
    (hc1 : 0 < c1) (hc2 : 0 < c2) (hT0 : 0 ≤ T)
    (hT1 : c1 * T / c2 ≤ maxFloat)
    (hT2 : c1 * T / c2 * pixel_size ^ 2 ≤ maxFloat)
    (htau : 0 ≤ tau) :
    (flux_per_pixel c1 c2 pixel_size T tau).isFin := by
  have hM := one_le_maxFloat
  rcases eq_or_lt_of_le hT0 with hTz | hTpos
  · have hTz' : T = 0 := hTz.symm
    subst hTz'
    have h1 : fdivR c2 0 = FloatR.pinf := by
      unfold fdivR
      rw [if_neg (by norm_num), if_pos hc2]
    have hp : planck_blackbody c1 c2 0 = FloatR.fin 0 := by
      unfold planck_blackbody
      rw [h1, FloatR.expm1_pinf, FloatR.div_fin_pinf]
    rw [flux_per_pixel_of_planck_fin c1 c2 pixel_size 0 tau 0 hp le_rfl
      (by rw [zero_mul]; linarith) htau]
    trivial
  · have hTne : T ≠ 0 := ne_of_gt hTpos
    have hu0 : 0 < c2 / T := div_pos hc2 hTpos
    have hdiv : fdivR c2 T = roundF (c2 / T) := by
      unfold fdivR
      rw [if_pos hTne]
    by_cases hu : maxFloat < c2 / T
    · have hp : planck_blackbody c1 c2 T = FloatR.fin 0 := by
        unfold planck_blackbody
        rw [hdiv, roundF_eq_pinf _ hu, FloatR.expm1_pinf, FloatR.div_fin_pinf]
      rw [flux_per_pixel_of_planck_fin c1 c2 pixel_size T tau 0 hp le_rfl
        (by rw [zero_mul]; linarith) htau]
      trivial
    · have huM : c2 / T ≤ maxFloat := not_lt.mp hu
      have h1 : fdivR c2 T = FloatR.fin (c2 / T) := by
        rw [hdiv]
        exact roundF_eq_fin _ huM (by linarith)
      have hv_lb : c2 / T ≤ Real.exp (c2 / T) - 1 := by
        have := Real.add_one_le_exp (c2 / T)
        linarith
      have hv0 : 0 < Real.exp (c2 / T) - 1 := lt_of_lt_of_le hu0 hv_lb
      by_cases hv : maxFloat < Real.exp (c2 / T) - 1
      · have hp : planck_blackbody c1 c2 T = FloatR.fin 0 := by
          unfold planck_blackbody
          rw [h1, FloatR.expm1_fin, roundF_eq_pinf _ hv, FloatR.div_fin_pinf]
        rw [flux_per_pixel_of_planck_fin c1 c2 pixel_size T tau 0 hp le_rfl
          (by rw [zero_mul]; linarith) htau]
        trivial
      · have hvM : Real.exp (c2 / T) - 1 ≤ maxFloat := not_lt.mp hv
        have hw0 : 0 < c1 / (Real.exp (c2 / T) - 1) := div_pos hc1 hv0
        have hw_le : c1 / (Real.exp (c2 / T) - 1) ≤ c1 * T / c2 := by
          have ha : c1 / (Real.exp (c2 / T) - 1) ≤ c1 / (c2 / T) :=
            div_le_div_of_nonneg_left hc1.le hu0 hv_lb
          rwa [div_div_eq_mul_div] at ha
        have hp : planck_blackbody c1 c2 T
            = FloatR.fin (c1 / (Real.exp (c2 / T) - 1)) := by
          unfold planck_blackbody
          rw [h1, FloatR.expm1_fin, roundF_eq_fin _ hvM (by linarith),
            FloatR.div_fin_fin _ _ hv0.ne']
          exact roundF_eq_fin _ (le_trans hw_le hT1) (by linarith)
        have hbound : c1 / (Real.exp (c2 / T) - 1) * pixel_size ^ 2
            ≤ maxFloat :=
          le_trans (mul_le_mul_of_nonneg_right hw_le (sq_nonneg _)) hT2
        rw [flux_per_pixel_of_planck_fin c1 c2 pixel_size T tau _ hp hw0.le
          hbound htau]
        trivial

/-- C7 counterexample: a large negative optical-depth entry overflows
`np.exp`: at c1 = c2 = pixel_size = 1, T = 1, tau = -1100 the absorption
factor is `1 - exp(1100) = 1 - inf = -inf` and the returned array holds the
entry -inf — an Inf the claim says can never appear. -/
theorem flux_per_pixel_overflow_cex :
    flux_per_pixel_map 1 1 1 [1] [-1100] = [FloatR.ninf] ∧
    ¬ FloatR.ninf.isFin := by
  have hM := one_le_maxFloat
  have hM2 : (2 : ℝ) ≤ maxFloat := by norm_num [maxFloat]
  have he1_lt : Real.exp 1 < 3 := lt_trans Real.exp_one_lt_d9 (by norm_num)
  have he1_gt : (2 : ℝ) < Real.exp 1 := lt_trans (by norm_num) Real.exp_one_gt_d9
  have hvpos : (0 : ℝ) < Real.exp 1 - 1 := by linarith
  have hppos : 0 < 1 / (Real.exp 1 - 1) := div_pos one_pos hvpos
  have hple : 1 / (Real.exp 1 - 1) ≤ 1 := by
    rw [div_le_one hvpos]
    linarith
  have h1 : fdivR 1 1 = FloatR.fin 1 := by
    unfold fdivR
    rw [if_pos (by norm_num : (1 : ℝ) ≠ 0), show (1 : ℝ) / 1 = 1 by norm_num]
    exact roundF_eq_fin 1 hM (by linarith)
  have h2 : FloatR.expm1 (FloatR.fin 1) = FloatR.fin (Real.exp 1 - 1) := by
    rw [FloatR.expm1_fin]
    exact roundF_eq_fin _ (by linarith) (by linarith)
  have h3 : planck_blackbody 1 1 1 = FloatR.fin (1 / (Real.exp 1 - 1)) := by
    unfold planck_blackbody
    rw [h1, h2, FloatR.div_fin_fin _ _ hvpos.ne']
    exact roundF_eq_fin _ (by linarith) (by linarith)
  have h4 : FloatR.exp (FloatR.neg (FloatR.fin (-1100))) = FloatR.pinf := by
    rw [FloatR.neg_fin, show -(-1100 : ℝ) = 1100 by norm_num, FloatR.exp_fin]
    refine roundF_eq_pinf _ ?_
    have hpow : Real.exp (1100 : ℝ) = Real.exp 1 ^ (1100 : ℕ) := by
      rw [← Real.exp_nat_mul]
      norm_num
    have h2pow : (2 : ℝ) ^ (1100 : ℕ) < Real.exp 1 ^ (1100 : ℕ) :=
      pow_lt_pow_left₀ he1_gt (by norm_num) (by norm_num)
    have hbig : maxFloat < (2 : ℝ) ^ (1100 : ℕ) := by norm_num [maxFloat]
    rw [hpow]
    linarith
  have h5 : FloatR.sub (FloatR.fin 1) FloatR.pinf = FloatR.ninf := rfl
  have h6 : FloatR.mul (FloatR.fin (1 / (Real.exp 1 - 1)))
      (FloatR.fin ((1 : ℝ) ^ 2)) = FloatR.fin (1 / (Real.exp 1 - 1)) := by
    rw [FloatR.mul_fin_fin, show ((1 : ℝ) ^ 2) = 1 by norm_num, mul_one]
    exact roundF_eq_fin _ (by linarith) (by linarith)
  have hflux : flux_per_pixel 1 1 1 1 (-1100) = FloatR.ninf := by
    unfold flux_per_pixel
    rw [h3, h4, h5, h6, FloatR.mul_fin_ninf _ hppos]
  constructor
  · simp only [flux_per_pixel_map, List.zipWith_cons_cons,
      List.zipWith_nil_right]
    rw [hflux]
  · simp [FloatR.isFin]

/-- C7 amended: for positive Planck scales c1, c2, every temperature entry
nonnegative and small enough that the Planck radiance and its product with
the pixel solid angle stay below the largest float64, and every
optical-depth entry nonnegative, the flux array holds no NaN and no Inf
entry, and a zero-temperature pixel gets exactly zero flux (in floats
`c2/0 = inf`, `expm1(inf) = inf`, `c1/inf = 0`). -/
theorem flux_per_pixel_finite_physical (c1 c2 pixel_size : ℝ)
    (hc1 : 0 < c1) (hc2 : 0 < c2)
    (temperature_distribution optical_depth : List ℝ)
    (hT : ∀ T ∈ temperature_distribution, 0 ≤ T ∧
        c1 * T / c2 ≤ maxFloat ∧ c1 * T / c2 * pixel_size ^ 2 ≤ maxFloat)
    (htau : ∀ tau ∈ optical_depth, 0 ≤ tau) :
    (∀ x ∈ flux_per_pixel_map c1 c2 pixel_size temperature_distribution
        optical_depth, x.isFin) ∧
    (∀ tau : ℝ, 0 ≤ tau →
      flux_per_pixel c1 c2 pixel_size 0 tau = FloatR.fin 0) := by
  constructor
  · intro x hx
    rcases mem_zipWith_exists _ temperature_distribution optical_depth x hx
      with ⟨T, hTm, tau, htm, rfl⟩
    rcases hT T hTm with ⟨h0, h1, h2⟩
    exact flux_per_pixel_isFin_physical c1 c2 pixel_size T tau hc1 hc2 h0 h1
      h2 (htau tau htm)
  · intro tau htau0
    have h1 : fdivR c2 0 = FloatR.pinf := by
      unfold fdivR
      rw [if_neg (by norm_num), if_pos hc2]
    have hp : planck_blackbody c1 c2 0 = FloatR.fin 0 := by
      unfold planck_blackbody
      rw [h1, FloatR.expm1_pinf, FloatR.div_fin_pinf]
    rw [flux_per_pixel_of_planck_fin c1 c2 pixel_size 0 tau 0 hp le_rfl
      (by rw [zero_mul]; linarith [one_le_maxFloat]) htau0]
    rw [zero_mul, zero_mul]

/-- Witness for the amended C7 at c1 = c2 = pixel_size = 1 on a
zero-temperature pixel with zero optical depth. -/
theorem flux_per_pixel_finite_physical_witness :
    flux_per_pixel 1 1 1 0 0 = FloatR.fin 0 :=
  (flux_per_pixel_finite_physical 1 1 1 (by norm_num) (by norm_num) [0] [0]
    (by
      intro T hT
      simp only [List.mem_singleton] at hT
      subst hT
      norm_num [maxFloat])
    (by
      intro tau htau
      simp only [List.mem_singleton] at htau
      simp [htau])).2 0 le_rfl

/-! ## model_base.Model.set_grid

For a two-element `incline_params = [axis_ratio, pos_angle]` the method
converts pos_angle from degrees to radians (line 220), raises ValueError
when `axis_ratio < 1` (line 226-227), and raises
ValueError("The positional angle must be between [0, 180]") when
`(pos_angle > 0) and (pos_angle < 180)` — with pos_angle already holding the
radian value (lines 229-230).  Only this validation segment is embedded;
what the method does past it is not needed to settle the claim. -/

inductive SetGridOutcome where
  | axis_ratio_error
  | position_angle_error
  | passes_validation

noncomputable def set_grid_validate (axis_ratio pos_angle : ℝ) :
    SetGridOutcome :=
  let pos_angle_rad := pos_angle * Real.pi / 180;
  if axis_ratio < 1 then .axis_ratio_error
  else if 0 < pos_angle_rad ∧ pos_angle_rad < 180 then .position_angle_error
  else .passes_validation

/-- C5: the input axis_ratio = 1, position_angle = 90 degrees satisfies the
spec's precondition (axis_ratio at least 1, angle inside [0, 180)), yet
set_grid raises the position-angle ValueError: the check compares the radian
value pi/2 against the degree bounds 0 and 180 with the acceptance and
rejection branches swapped, so every angle in (0, 180) degrees is
rejected — contradicting the method's own error message. -/
theorem set_grid_rejects_position_angle_90 :
    set_grid_validate 1 90 = SetGridOutcome.position_angle_error := by
  have hpi : (0 : ℝ) < Real.pi := Real.pi_pos
  have hpi4 : Real.pi < 4 := by
    nlinarith [Real.pi_lt_d2, Real.pi_gt_three]
  have h2 : 0 < (90 : ℝ) * Real.pi / 180 ∧ (90 : ℝ) * Real.pi / 180 < 180 :=
    ⟨by positivity, by nlinarith⟩
  simp only [set_grid_validate]
  rw [if_neg (lt_irrefl (1 : ℝ)), if_pos h2]

end Ppdmod
